import Mathlib

/-!
Verification of the writsy-editor repository: a shallow embedding of
`src/utils/sanitizeUrl.tsx` and `src/components/TextEditor.tsx`.

Strings are modelled as `List Char`; machine behavior of JavaScript string
primitives (`trim`, `toLowerCase`, regex prefix tests) is translated directly.
The browser's `new URL(...)` constructor (WHATWG URL parser) is not repository
code; it is modelled below (`parseL` / `serializeL`) as the fragment of the
WHATWG standard that `sanitizeUrl` exercises: inputs whose scheme is
`http`/`https` (every string `sanitizeUrl` passes to `new URL` has that shape).
The model is conservative: inputs that would need percent-encoding, userinfo,
IPv6 hosts, IDNA or port leading-zero normalization are rejected (parse
failure) instead of being normalized, mirroring `catch -> null` in the source.
-/

namespace Writsy

/-! ## Character classes -/

/-- ASCII tab, line feed or carriage return: removed everywhere by the WHATWG
URL parser before parsing. -/
def isTabOrNewline (c : Char) : Bool :=
  c.toNat == 9 || c.toNat == 10 || c.toNat == 13

/-- C0 control or space: stripped from both ends by the WHATWG URL parser. -/
def isC0OrSpace (c : Char) : Bool :=
  decide (c.toNat ≤ 32)

/-- White space recognized by JavaScript `String.prototype.trim` (ASCII white
space, NBSP, BOM and the Unicode line separators; other Zs members omitted). -/
def jsWhitespace (c : Char) : Bool :=
  c.toNat == 9 || c.toNat == 10 || c.toNat == 11 || c.toNat == 12 ||
  c.toNat == 13 || c.toNat == 32 || c.toNat == 160 || c.toNat == 8232 ||
  c.toNat == 8233 || c.toNat == 65279

/-- ASCII-range lower-casing, as JavaScript `toLowerCase` acts on ASCII. -/
def lowerChar (c : Char) : Char :=
  if 65 ≤ c.toNat ∧ c.toNat ≤ 90 then Char.ofNat (c.toNat + 32) else c

/-- Lower-case every character of a character list. -/
def lowerL (l : List Char) : List Char := l.map lowerChar

/-- Structural character: a colon. -/
def isColon (c : Char) : Bool := c.toNat == 58

/-- Structural character: slash or backslash (both act as separators in
special WHATWG URLs). -/
def isSlashy (c : Char) : Bool := c.toNat == 47 || c.toNat == 92

/-- Structural character: question mark (query delimiter). -/
def isQm (c : Char) : Bool := c.toNat == 63

/-- Structural character: number sign (fragment delimiter). -/
def isHash (c : Char) : Bool := c.toNat == 35

/-- Character terminating the authority of a URL: slash, backslash, question
mark or number sign. -/
def isAuthEnd (c : Char) : Bool := isSlashy c || isQm c || isHash c

/-- Character accepted inside a host: ASCII lower-case letter, digit, dot,
hyphen or underscore (a conservative fragment of WHATWG domains; the parser
lower-cases the host first, so upper-case input letters are accepted). -/
def hostCharOk (c : Char) : Bool :=
  (decide (97 ≤ c.toNat) && decide (c.toNat ≤ 122)) ||
  (decide (48 ≤ c.toNat) && decide (c.toNat ≤ 57)) ||
  c.toNat == 46 || c.toNat == 45 || c.toNat == 95

/-- ASCII digit. -/
def isDigitC (c : Char) : Bool :=
  decide (48 ≤ c.toNat) && decide (c.toNat ≤ 57)

/-- Character accepted verbatim inside a path segment: printable ASCII except
the characters the WHATWG path percent-encodes or treats structurally. -/
def segOk (c : Char) : Bool :=
  decide (33 ≤ c.toNat) && decide (c.toNat ≤ 126) &&
  !(c.toNat == 34 || c.toNat == 35 || c.toNat == 37 || c.toNat == 47 ||
    c.toNat == 60 || c.toNat == 62 || c.toNat == 63 || c.toNat == 92 ||
    c.toNat == 96 || c.toNat == 123 || c.toNat == 125)

/-- Character accepted verbatim inside a query: printable ASCII except the
characters the WHATWG special-query set percent-encodes, and the fragment
delimiter. -/
def queryOk (c : Char) : Bool :=
  decide (33 ≤ c.toNat) && decide (c.toNat ≤ 126) &&
  !(c.toNat == 34 || c.toNat == 35 || c.toNat == 39 || c.toNat == 60 ||
    c.toNat == 62)

/-- Character accepted verbatim inside a fragment: printable ASCII except the
characters the WHATWG fragment set percent-encodes. -/
def fragOk (c : Char) : Bool :=
  decide (33 ≤ c.toNat) && decide (c.toNat ≤ 126) &&
  !(c.toNat == 34 || c.toNat == 60 || c.toNat == 62 || c.toNat == 96)

/-! ## Generic list helpers -/

/-- Boolean test that `p` is an initial segment of `l`. -/
def startsWithL : List Char → List Char → Bool
  | [], _ => true
  | _ :: _, [] => false
  | p :: ps, c :: cs => p == c && startsWithL ps cs

/-- Drop characters satisfying `p` from both ends of a list. -/
def trimBy (p : Char → Bool) (l : List Char) : List Char :=
  ((l.dropWhile p).reverse.dropWhile p).reverse

/-- JavaScript `String.prototype.trim`. -/
def trimJS (l : List Char) : List Char := trimBy jsWhitespace l

/-- WHATWG input preparation: strip C0 controls and spaces from both ends. -/
def trimC0 (l : List Char) : List Char := trimBy isC0OrSpace l

/-! ## The sanitizer's regular-expression tests -/

/-- Test of the denylist regex of `sanitizeUrl`, line 16 of
`src/utils/sanitizeUrl.tsx`: does the string begin, case-insensitively, with
one of the schemes `javascript:`, `data:`, `vbscript:`, `file:`, `about:`. -/
def dangerousTestL (l : List Char) : Bool :=
  startsWithL "javascript:".data (lowerL l) || startsWithL "data:".data (lowerL l) ||
  startsWithL "vbscript:".data (lowerL l) || startsWithL "file:".data (lowerL l) ||
  startsWithL "about:".data (lowerL l)

/-- Test of the scheme regex of `sanitizeUrl`, line 23: does the string begin,
case-insensitively, with `http://` or `https://`. -/
def schemeTestL (l : List Char) : Bool :=
  startsWithL "http://".data (lowerL l) || startsWithL "https://".data (lowerL l)

/-! ## WHATWG URL model -/

/-- Parsed URL record: scheme, host, optional port (kept as its canonical
digit string), path segments, optional query and optional fragment. -/
structure UrlParts where
  scheme : List Char
  host : List Char
  port : Option (List Char)
  path : List (List Char)
  query : Option (List Char)
  fragment : Option (List Char)
deriving DecidableEq

/-- Numeric value of a digit string. -/
def digitsVal (l : List Char) : Nat :=
  l.foldl (fun a c => a * 10 + (c.toNat - 48)) 0

/-- Digit string with no redundant leading zero. -/
def noLeadZeroB : List Char → Bool
  | c :: _ :: _ => !(c.toNat == 48)
  | _ => true

/-- Port parsing of the WHATWG host parser, given the lower-cased scheme and
the authority remainder after the host (empty, or a colon followed by the port
digits). An empty port is dropped; the scheme's default port is dropped; a
non-digit, out-of-range or leading-zero port is a parse failure (the WHATWG
parser normalizes leading zeros; the model conservatively rejects them). -/
def parsePortPart (sch : List Char) (pp : List Char) : Option (Option (List Char)) :=
  match pp with
  | [] => some none
  | _ :: ds =>
    if ds = [] then some none
    else if ds.all isDigitC then
      if noLeadZeroB ds then
        if digitsVal ds ≤ 65535 then
          if (sch = "http".data ∧ ds = "80".data) ∨
             (sch = "https".data ∧ ds = "443".data) then some none
          else some (some ds)
        else none
      else none
    else none

/-- Helper of `splitSlash`: prepend a character to the first piece. -/
def consHead (c : Char) : List (List Char) → List (List Char)
  | [] => [[c]]
  | s :: rest => (c :: s) :: rest

/-- Split a character list at every slash or backslash, the separators of the
WHATWG path state for special URLs. -/
def splitSlash : List Char → List (List Char)
  | [] => [[]]
  | c :: cs => if isSlashy c then [] :: splitSlash cs else consHead c (splitSlash cs)

/-- One step of WHATWG dot-segment removal for a non-final raw segment:
double-dot pops the last accepted segment, single-dot is skipped, anything
else is appended. -/
def segStep (acc : List (List Char)) (s : List Char) : List (List Char) :=
  if s = "..".data then acc.dropLast
  else if s = ".".data then acc
  else acc ++ [s]

/-- WHATWG dot-segment removal for the final raw segment: a dot segment also
leaves an empty segment behind, keeping the trailing slash. -/
def segLast (acc : List (List Char)) (s : List Char) : List (List Char) :=
  if s = "..".data then acc.dropLast ++ [[]]
  else if s = ".".data then acc ++ [[]]
  else acc ++ [s]

/-- WHATWG dot-segment removal over all raw segments. -/
def normSegs (acc : List (List Char)) : List (List Char) → List (List Char)
  | [] => acc ++ [[]]
  | [s] => segLast acc s
  | s :: rest => normSegs (segStep acc s) rest

/-- Query and fragment parsing: the remainder after the path is empty, or a
question mark followed by the query (up to a number sign) and an optional
fragment, or a number sign followed by the fragment. -/
def parseQF (r : List Char) : Option (Option (List Char) × Option (List Char)) :=
  match r with
  | [] => some (none, none)
  | c :: cs =>
    if isQm c then
      if (cs.takeWhile (fun k => !(isHash k))).all queryOk then
        match cs.dropWhile (fun k => !(isHash k)) with
        | [] => some (some (cs.takeWhile (fun k => !(isHash k))), none)
        | _ :: fs =>
          if fs.all fragOk then
            some (some (cs.takeWhile (fun k => !(isHash k))), some fs)
          else none
      else none
    else if isHash c then
      if cs.all fragOk then some (none, some cs) else none
    else none

/-- Path, query and fragment parsing: the remainder after the authority is
empty (path is the single empty segment), or starts with a separator and a
path region running to the first question mark or number sign, split into
segments and dot-normalized, or starts directly with the query or fragment. -/
def parseTail (r : List Char) :
    Option (List (List Char) × Option (List Char) × Option (List Char)) :=
  match r with
  | [] => some ([[]], none, none)
  | c :: cs =>
    if isSlashy c then
      let pregion := cs.takeWhile (fun k => !(isQm k || isHash k))
      let rest4 := cs.dropWhile (fun k => !(isQm k || isHash k))
      let rawSegs := splitSlash pregion
      if rawSegs.all (fun s => s.all segOk) then
        match parseQF rest4 with
        | none => none
        | some (q, f) => some (normSegs [] rawSegs, q, f)
      else none
    else
      match parseQF r with
      | none => none
      | some (q, f) => some ([[]], q, f)

/-- WHATWG input preparation: strip C0 controls and spaces from both ends,
then remove every ASCII tab and newline. -/
def prepInput (input : List Char) : List Char :=
  (trimC0 input).filter (fun c => !(isTabOrNewline c))

/-- Authority, path, query and fragment parsing, given the lower-cased scheme
and the input remainder after the scheme's colon and slashes: the authority
runs to the first slash, backslash, question mark or number sign and is split
at its first colon into host (lower-cased, character-validated) and port. -/
def parseAuth (sch r : List Char) : Option UrlParts :=
  if lowerL ((r.takeWhile (fun c => !(isAuthEnd c))).takeWhile (fun c => !(isColon c))) ≠ [] ∧
     (lowerL ((r.takeWhile (fun c => !(isAuthEnd c))).takeWhile (fun c => !(isColon c)))).all
       hostCharOk then
    match parsePortPart sch
        ((r.takeWhile (fun c => !(isAuthEnd c))).dropWhile (fun c => !(isColon c))) with
    | none => none
    | some port =>
      match parseTail (r.dropWhile (fun c => !(isAuthEnd c))) with
      | none => none
      | some (path, q, f) =>
        some ⟨sch,
          lowerL ((r.takeWhile (fun c => !(isAuthEnd c))).takeWhile (fun c => !(isColon c))),
          port, path, q, f⟩
  else none

/-- Model of `new URL(input)` for the fragment `sanitizeUrl` exercises:
prepare the input; read the scheme up to the first colon and lower-case it
(only `http`/`https` are modelled — every string the sanitizer parses has
such a scheme); skip the slashes of the special-authority states; then parse
authority, path, query and fragment. Returns `none` on any parse failure, as
`new URL` throws. -/
def parseL (input : List Char) : Option UrlParts :=
  match (prepInput input).dropWhile (fun c => !(isColon c)) with
  | [] => none
  | _ :: afterColon =>
    if lowerL ((prepInput input).takeWhile (fun c => !(isColon c))) = "http".data ∨
       lowerL ((prepInput input).takeWhile (fun c => !(isColon c))) = "https".data then
      parseAuth (lowerL ((prepInput input).takeWhile (fun c => !(isColon c))))
        (afterColon.dropWhile isSlashy)
    else none

/-- Serialization of a list of path segments, each preceded by a slash. -/
def joinSegs : List (List Char) → List Char
  | [] => []
  | s :: rest => '/' :: (s ++ joinSegs rest)

/-- Serialization of the optional port: a colon and the digits. -/
def portL : Option (List Char) → List Char
  | none => []
  | some p => ':' :: p

/-- Serialization of the optional query and fragment. -/
def qfL (q f : Option (List Char)) : List Char :=
  (match q with | none => [] | some x => '?' :: x) ++
  (match f with | none => [] | some x => '#' :: x)

/-- Model of `URL.prototype.toString` (the WHATWG URL serializer) for URLs
with an authority. -/
def serializeL (u : UrlParts) : List Char :=
  u.scheme ++ "://".data ++ u.host ++ portL u.port ++ joinSegs u.path ++
  qfL u.query u.fragment

/-! ## The sanitizer, translated from `src/utils/sanitizeUrl.tsx` -/

/-- Translation of `sanitizeUrl` on character lists, line for line: return
`none` on empty or white-space-only input; trim; return `none` if the trimmed
input matches the dangerous-scheme denylist; prepend `https://` unless an
explicit `http`/`https` scheme is present; parse; return `none` on parse
failure or if the parsed protocol is not `http:`/`https:`; otherwise return
the re-serialized URL. -/
def sanitizeUrlL (url : List Char) : Option (List Char) :=
  if trimJS url = [] then none
  else if dangerousTestL (trimJS url) then none
  else
    match parseL (if schemeTestL (trimJS url) then trimJS url
                  else "https://".data ++ trimJS url) with
    | none => none
    | some parts =>
      if parts.scheme = "http".data ∨ parts.scheme = "https".data then
        some (serializeL parts)
      else none

/-- String-level `sanitizeUrl`, the function exported by
`src/utils/sanitizeUrl.tsx`. -/
def sanitizeUrl (url : String) : Option String :=
  (sanitizeUrlL url.data).map (fun l => String.mk l)

/-- Normalized input handed to `new URL` by `sanitizeUrl`: the trimmed input,
with `https://` prepended unless an explicit `http`/`https` scheme is
present. -/
def normalizedInput (s : String) : List Char :=
  if schemeTestL (trimJS s.data) then trimJS s.data
  else "https://".data ++ trimJS s.data

/-! ## DOM and editor model, from `src/components/TextEditor.tsx`

The editable region's children are modelled as a list of nodes; a node is a
text node or an element carrying a tag name, an optional inline `font-size`
(the only style property the component touches) and children. A cached
selection (`selectionRef`) is a range over the top-level child list, given by
its start and end positions; `collapsed` is start = end, `cloneContents` is
the slice between the positions. `document.execCommand` is a browser
primitive; its document effect is an uninterpreted parameter `eff`, and the
model logs each executed command, each emitted content notification
(`onHtmlChange`) and each alert. -/

/-- DOM node: text, or an element with tag, optional inline font-size in
pixels, and children. -/
inductive DomNode where
  | text (s : String)
  | element (tag : String) (fontSize : Option Nat) (children : List DomNode)

mutual

/-- Concatenated text content of a node (`Node.textContent`). -/
def textContent : DomNode → String
  | .text s => s
  | .element _ _ ch => textContentList ch

/-- Concatenated text content of a list of nodes. -/
def textContentList : List DomNode → String
  | [] => ""
  | n :: rest => textContent n ++ textContentList rest

end

/-- Boolean test for a text node (`node.nodeType === Node.TEXT_NODE`). -/
def isText : DomNode → Bool
  | .text _ => true
  | .element _ _ _ => false

/-- Cached selection range over the editor's top-level child list. -/
structure SelRange where
  startPos : Nat
  endPos : Nat

/-- State of the `TextEditor` widget: document content (the editable region's
children), the cached selection (`selectionRef`), the `hasSelection` flag, the
`disabled` prop, and observation logs: every content string emitted through
`onHtmlChange`, every `document.execCommand` invocation, the number of
`alert` calls, whether the editor was just refocused, and whether the handler
aborted with an uncaught exception (`exn`). The `selection` field holds the
cached range as a range over the editor's top-level child list; a cached
range lying outside the editor's content is represented as `none`, matching
the selection tracker, which stores `null` for selections outside the
editable region. -/
structure EditorState where
  content : List DomNode
  selection : Option SelRange
  hasSelection : Bool
  disabled : Bool
  emitted : List (List DomNode)
  commands : List (String × Option String)
  alerts : Nat
  focused : Bool
  exn : Bool

/-- Translation of `execCommand` (lines 67-76): bail out unless a selection is
cached and the widget is enabled; otherwise restore the selection, run the
native command (its document effect is the parameter `eff`), emit the updated
content and refocus. -/
def execCommand (eff : String → Option String → List DomNode → List DomNode)
    (command : String) (value : Option String) (st : EditorState) : EditorState :=
  if st.hasSelection = false ∨ st.disabled = true then st
  else
    let newContent := eff command value st.content
    { st with
      content := newContent
      emitted := st.emitted ++ [newContent]
      commands := st.commands ++ [(command, value)]
      focused := true }

/-- Wrapping of one cloned child node by `handleFontSize` (lines 94-108): a
text node is wrapped in a new `span` with an explicit pixel font-size and the
same text content; any other node is cloned and its font-size overridden in
place, avoiding a nested wrapper. -/
def wrapNode (size : Nat) : DomNode → DomNode
  | .text s => .element "span" (some size) [.text s]
  | .element tag _ ch => .element tag (some size) ch

/-- Translation of `handleFontSize` (lines 78-122): bail out unless a
selection is cached and the widget is enabled; bail out if the cached range is
collapsed; otherwise wrap every top-level node of the range's cloned contents
and replace the range's contents with the rebuilt fragment (`deleteContents`
followed by `insertNode`). The code then assigns a fresh collapsed range at
the document root to `selectionRef` and calls
`setStartAfter(fragment.lastChild!)` — but `insertNode` has moved the
fragment's children into the document, leaving the fragment empty, so
`fragment.lastChild` is `null` and `setStartAfter` throws a `TypeError`. The
handler therefore aborts after the content mutation: the cursor is never
collapsed after the inserted fragment, nothing is emitted and the editor is
not refocused. The model records the abort in `exn`; the dangling fresh range
lies at the document root, outside the editor's child list, so the cached
editor-content range is `none` (the same representation the selection tracker
uses for out-of-editor selections). -/
def handleFontSize (size : Nat) (st : EditorState) : EditorState :=
  match st.selection with
  | none => st
  | some r =>
    if st.disabled = true then st
    else if r.startPos = r.endPos then st
    else
      { st with
        content := st.content.take r.startPos ++
          ((st.content.take r.endPos).drop r.startPos).map (wrapNode size) ++
          st.content.drop r.endPos
        selection := none
        exn := true }

/-- Translation of `handleLink` (lines 124-138): `promptResult` is what the
blocking prompt returned (`none` for cancel). Bail out on cancel or empty
input; otherwise sanitize the entered URL; on success run the native
`createLink` command with the sanitized URL; on rejection show an alert and
touch nothing else. -/
def handleLink (eff : String → Option String → List DomNode → List DomNode)
    (promptResult : Option String) (st : EditorState) : EditorState :=
  match promptResult with
  | none => st
  | some url =>
    if url = "" then st
    else
      match sanitizeUrl url with
      | some s => execCommand eff "createLink" (some s) st
      | none => { st with alerts := st.alerts + 1 }

/-! ## List helper lemmas -/

theorem takeWhile_append_sat {p : Char → Bool} {l1 : List Char} (l2 : List Char)
    (h : ∀ c ∈ l1, p c = true) :
    (l1 ++ l2).takeWhile p = l1 ++ l2.takeWhile p := by
  induction l1 with
  | nil => rfl
  | cons a t ih =>
    rw [List.cons_append, List.takeWhile_cons,
      if_pos (h a (List.mem_cons_self a t)),
      ih (fun c hc => h c (List.mem_cons_of_mem a hc)), List.cons_append]

theorem dropWhile_append_sat {p : Char → Bool} {l1 : List Char} (l2 : List Char)
    (h : ∀ c ∈ l1, p c = true) :
    (l1 ++ l2).dropWhile p = l2.dropWhile p := by
  induction l1 with
  | nil => rfl
  | cons a t ih =>
    rw [List.cons_append, List.dropWhile_cons,
      if_pos (h a (List.mem_cons_self a t))]
    exact ih (fun c hc => h c (List.mem_cons_of_mem a hc))

theorem takeWhile_head_false {p : Char → Bool} {c : Char} (cs : List Char)
    (h : p c = false) : (c :: cs).takeWhile p = [] := by
  simp [List.takeWhile_cons, h]

theorem dropWhile_head_false {p : Char → Bool} {c : Char} (cs : List Char)
    (h : p c = false) : (c :: cs).dropWhile p = c :: cs := by
  simp [List.dropWhile_cons, h]

theorem takeWhile_all_sat {p : Char → Bool} {l : List Char}
    (h : ∀ c ∈ l, p c = true) : l.takeWhile p = l := by
  have h2 : (l ++ []).takeWhile p = l ++ [].takeWhile p := takeWhile_append_sat [] h
  simpa using h2

theorem dropWhile_all_sat {p : Char → Bool} {l : List Char}
    (h : ∀ c ∈ l, p c = true) : l.dropWhile p = [] := by
  have h2 : (l ++ []).dropWhile p = [].dropWhile p := dropWhile_append_sat [] h
  simpa using h2

theorem dropWhile_all_false {p : Char → Bool} {l : List Char}
    (h : ∀ c ∈ l, p c = false) : l.dropWhile p = l := by
  cases l with
  | nil => rfl
  | cons a t => exact dropWhile_head_false t (h a (by simp))

theorem trimBy_id {p : Char → Bool} {l : List Char}
    (h : ∀ c ∈ l, p c = false) : trimBy p l = l := by
  unfold trimBy
  rw [dropWhile_all_false h, dropWhile_all_false (by intro c hc; exact h c (by simpa using hc)),
    List.reverse_reverse]

theorem filter_id {p : Char → Bool} {l : List Char}
    (h : ∀ c ∈ l, p c = false) : l.filter (fun c => !(p c)) = l :=
  List.filter_eq_self.mpr (by intro c hc; simp [h c hc])

/-! ## Character-class lemmas -/

/-- Printable ASCII range used by every serialized-URL character. -/
def printableOk (c : Char) : Prop := 33 ≤ c.toNat ∧ c.toNat ≤ 126

instance (c : Char) : Decidable (printableOk c) := by
  unfold printableOk; infer_instance

theorem printable_not_special {c : Char} (h : printableOk c) :
    isC0OrSpace c = false ∧ isTabOrNewline c = false ∧ jsWhitespace c = false := by
  obtain ⟨h1, h2⟩ := h
  refine ⟨?_, ?_, ?_⟩ <;>
    simp only [isC0OrSpace, isTabOrNewline, jsWhitespace, Bool.or_eq_false_iff,
      decide_eq_false_iff_not, beq_eq_false_iff_ne, ne_eq] <;> omega

theorem hostCharOk_props {c : Char} (h : hostCharOk c = true) :
    isColon c = false ∧ isAuthEnd c = false ∧ lowerChar c = c ∧ printableOk c := by
  simp only [hostCharOk, Bool.or_eq_true, Bool.and_eq_true, decide_eq_true_eq,
    beq_iff_eq] at h
  refine ⟨?_, ?_, ?_, ?_⟩
  · simp only [isColon, beq_eq_false_iff_ne, ne_eq]; omega
  · simp only [isAuthEnd, isSlashy, isQm, isHash, Bool.or_eq_false_iff,
      beq_eq_false_iff_ne, ne_eq]; omega
  · unfold lowerChar; rw [if_neg (by omega)]
  · unfold printableOk; omega

theorem isDigitC_props {c : Char} (h : isDigitC c = true) :
    isColon c = false ∧ isAuthEnd c = false ∧ printableOk c := by
  simp only [isDigitC, Bool.and_eq_true, decide_eq_true_eq] at h
  refine ⟨?_, ?_, ?_⟩
  · simp only [isColon, beq_eq_false_iff_ne, ne_eq]; omega
  · simp only [isAuthEnd, isSlashy, isQm, isHash, Bool.or_eq_false_iff,
      beq_eq_false_iff_ne, ne_eq]; omega
  · unfold printableOk; omega

theorem segOk_props {c : Char} (h : segOk c = true) :
    isSlashy c = false ∧ (isQm c || isHash c) = false ∧ printableOk c := by
  simp only [segOk, Bool.and_eq_true, decide_eq_true_eq, Bool.not_eq_true',
    Bool.or_eq_false_iff, beq_eq_false_iff_ne, ne_eq] at h
  refine ⟨?_, ?_, ?_⟩
  · simp only [isSlashy, Bool.or_eq_false_iff, beq_eq_false_iff_ne, ne_eq]; omega
  · simp only [isQm, isHash, Bool.or_eq_false_iff, beq_eq_false_iff_ne, ne_eq]; omega
  · unfold printableOk; omega

theorem queryOk_props {c : Char} (h : queryOk c = true) :
    isHash c = false ∧ printableOk c := by
  simp only [queryOk, Bool.and_eq_true, decide_eq_true_eq, Bool.not_eq_true',
    Bool.or_eq_false_iff, beq_eq_false_iff_ne, ne_eq] at h
  refine ⟨?_, ?_⟩
  · simp only [isHash, beq_eq_false_iff_ne, ne_eq]; omega
  · unfold printableOk; omega

theorem fragOk_props {c : Char} (h : fragOk c = true) : printableOk c := by
  simp only [fragOk, Bool.and_eq_true, decide_eq_true_eq] at h
  unfold printableOk; omega

/-! ## Path-segment lemmas -/

theorem splitSlash_nil : splitSlash [] = [[]] := rfl

theorem splitSlash_cons_sep {c : Char} (cs : List Char) (h : isSlashy c = true) :
    splitSlash (c :: cs) = [] :: splitSlash cs := by
  show (if isSlashy c = true then [] :: splitSlash cs else consHead c (splitSlash cs)) =
    [] :: splitSlash cs
  rw [if_pos h]

theorem splitSlash_cons_nonsep {c : Char} (cs : List Char) (h : isSlashy c = false) :
    splitSlash (c :: cs) = consHead c (splitSlash cs) := by
  show (if isSlashy c = true then [] :: splitSlash cs else consHead c (splitSlash cs)) =
    consHead c (splitSlash cs)
  rw [if_neg (by simp [h])]

theorem splitSlash_no_sep {s : List Char} (h : ∀ c ∈ s, isSlashy c = false) :
    splitSlash s = [s] := by
  induction s with
  | nil => rfl
  | cons a t ih =>
    rw [splitSlash_cons_nonsep t (h a (by simp)), ih (fun c hc => h c (by simp [hc]))]
    rfl

theorem splitSlash_append {s : List Char} (t : List Char)
    (h : ∀ c ∈ s, isSlashy c = false) :
    splitSlash (s ++ '/' :: t) = s :: splitSlash t := by
  induction s with
  | nil =>
    rw [List.nil_append, splitSlash_cons_sep t (by decide)]
  | cons a u ih =>
    rw [List.cons_append, splitSlash_cons_nonsep _ (h a (by simp)),
      ih (fun c hc => h c (by simp [hc]))]
    rfl

theorem splitSlash_join {segs : List (List Char)} {s : List Char}
    (h : ∀ t ∈ s :: segs, ∀ c ∈ t, isSlashy c = false) :
    splitSlash (s ++ joinSegs segs) = s :: segs := by
  induction segs generalizing s with
  | nil =>
    show splitSlash (s ++ []) = [s]
    rw [List.append_nil]
    exact splitSlash_no_sep (h s (by simp))
  | cons r rs ih =>
    show splitSlash (s ++ '/' :: (r ++ joinSegs rs)) = s :: r :: rs
    rw [splitSlash_append _ (h s (by simp))]
    rw [ih (by intro t ht c hc; exact h t (by simp at ht ⊢; tauto) c hc)]

theorem splitSlash_ne_nil (l : List Char) : splitSlash l ≠ [] := by
  induction l with
  | nil => simp [splitSlash]
  | cons a t ih =>
    by_cases hs : isSlashy a = true
    · rw [splitSlash_cons_sep t hs]; simp
    · rw [splitSlash_cons_nonsep t (by simpa using hs)]
      cases hsp : splitSlash t with
      | nil => simp [consHead]
      | cons s rest => simp [consHead]

/-- Segment produced by dot-segment removal: never a dot segment, and its
characters come from the raw segments or the accumulator. -/
theorem normSegs_sound {acc l : List (List Char)}
    (hacc : ∀ s ∈ acc, (s ≠ ".".data ∧ s ≠ "..".data) ∧ ∀ c ∈ s, segOk c = true)
    (hl : ∀ s ∈ l, ∀ c ∈ s, segOk c = true) :
    ∀ s ∈ normSegs acc l, (s ≠ ".".data ∧ s ≠ "..".data) ∧ ∀ c ∈ s, segOk c = true := by
  induction l generalizing acc with
  | nil =>
    intro s hs
    unfold normSegs at hs
    rcases List.mem_append.mp hs with h | h
    · exact hacc s h
    · simp at h; subst h; exact ⟨by decide, by intro c hc; simp at hc⟩
  | cons a rest ih =>
    intro s hs
    cases rest with
    | nil =>
      unfold normSegs segLast at hs
      by_cases h2 : a = "..".data
      · rw [if_pos h2] at hs
        rcases List.mem_append.mp hs with h | h
        · exact hacc s (List.dropLast_subset _ h)
        · simp at h; subst h; exact ⟨by decide, by intro c hc; simp at hc⟩
      · rw [if_neg h2] at hs
        by_cases h1 : a = ".".data
        · rw [if_pos h1] at hs
          rcases List.mem_append.mp hs with h | h
          · exact hacc s h
          · simp at h; subst h; exact ⟨by decide, by intro c hc; simp at hc⟩
        · rw [if_neg h1] at hs
          rcases List.mem_append.mp hs with h | h
          · exact hacc s h
          · simp at h; subst h
            exact ⟨⟨h1, h2⟩, hl s (by simp)⟩
    | cons b brest =>
      have hstep : ∀ s ∈ segStep acc a,
          (s ≠ ".".data ∧ s ≠ "..".data) ∧ ∀ c ∈ s, segOk c = true := by
        intro s hs2
        unfold segStep at hs2
        by_cases h2 : a = "..".data
        · rw [if_pos h2] at hs2
          exact hacc s (List.dropLast_subset _ hs2)
        · rw [if_neg h2] at hs2
          by_cases h1 : a = ".".data
          · rw [if_pos h1] at hs2
            exact hacc s hs2
          · rw [if_neg h1] at hs2
            rcases List.mem_append.mp hs2 with h | h
            · exact hacc s h
            · simp at h; subst h
              exact ⟨⟨h1, h2⟩, hl s (by simp)⟩
      exact ih hstep (by intro t ht c hc; exact hl t (by simp at ht ⊢; tauto) c hc) s
        (by simpa [normSegs] using hs)

theorem normSegs_ne_nil (acc l : List (List Char)) : normSegs acc l ≠ [] := by
  induction l generalizing acc with
  | nil => simp [normSegs]
  | cons a rest ih =>
    cases rest with
    | nil =>
      unfold normSegs segLast
      by_cases h2 : a = "..".data
      · simp [h2]
      · rw [if_neg h2]
        by_cases h1 : a = ".".data
        · simp [h1]
        · simp [h1, h2]
    | cons b brest => simpa [normSegs] using ih (segStep acc a)

/-- Dot-segment removal is the identity on dot-free segment lists. -/
theorem normSegs_dotfree {l : List (List Char)} (acc : List (List Char))
    (h : ∀ s ∈ l, s ≠ ".".data ∧ s ≠ "..".data) (hne : l ≠ []) :
    normSegs acc l = acc ++ l := by
  induction l generalizing acc with
  | nil => exact absurd rfl hne
  | cons a rest ih =>
    cases rest with
    | nil =>
      unfold normSegs segLast
      rw [if_neg (h a (by simp)).2, if_neg (h a (by simp)).1]
    | cons b brest =>
      show normSegs (segStep acc a) (b :: brest) = acc ++ a :: b :: brest
      rw [ih (segStep acc a) (by intro s hs; exact h s (by simp at hs ⊢; tauto)) (by simp)]
      unfold segStep
      rw [if_neg (h a (by simp)).2, if_neg (h a (by simp)).1, List.append_assoc]
      rfl

/-! ## Invariant of parsed URLs -/

/-- Properties every `UrlParts` produced by `parseL` satisfies; they are
exactly what makes re-parsing the serialization the identity. -/
structure UrlInv (u : UrlParts) : Prop where
  scheme_ok : u.scheme = "http".data ∨ u.scheme = "https".data
  host_ne : u.host ≠ []
  host_ok : ∀ c ∈ u.host, hostCharOk c = true
  port_ok : ∀ p, u.port = some p → p ≠ [] ∧ (∀ c ∈ p, isDigitC c = true) ∧
    noLeadZeroB p = true ∧ digitsVal p ≤ 65535 ∧
    ¬((u.scheme = "http".data ∧ p = "80".data) ∨
      (u.scheme = "https".data ∧ p = "443".data))
  path_ne : u.path ≠ []
  path_ok : ∀ s ∈ u.path, (s ≠ ".".data ∧ s ≠ "..".data) ∧ ∀ c ∈ s, segOk c = true
  query_ok : ∀ q, u.query = some q → ∀ c ∈ q, queryOk c = true
  frag_ok : ∀ f, u.fragment = some f → ∀ c ∈ f, fragOk c = true

/-! ## Round trip and soundness of the URL components -/

theorem parsePortPart_rt_none (sch : List Char) : parsePortPart sch [] = some none := rfl

theorem parsePortPart_rt_some {sch p : List Char}
    (hne : p ≠ []) (hdig : ∀ c ∈ p, isDigitC c = true) (hlz : noLeadZeroB p = true)
    (hval : digitsVal p ≤ 65535)
    (hdef : ¬((sch = "http".data ∧ p = "80".data) ∨
      (sch = "https".data ∧ p = "443".data))) :
    parsePortPart sch (':' :: p) = some (some p) := by
  show (if p = [] then some none
    else if p.all isDigitC then
      if noLeadZeroB p then
        if digitsVal p ≤ 65535 then
          if (sch = "http".data ∧ p = "80".data) ∨
             (sch = "https".data ∧ p = "443".data) then some none
          else some (some p)
        else none
      else none
    else none) = some (some p)
  rw [if_neg hne, if_pos (List.all_eq_true.mpr hdig), if_pos hlz, if_pos hval, if_neg hdef]

theorem parsePortPart_cons (sch : List Char) (c : Char) (ds : List Char) :
    parsePortPart sch (c :: ds) =
    (if ds = [] then some none
     else if ds.all isDigitC then
       if noLeadZeroB ds then
         if digitsVal ds ≤ 65535 then
           if (sch = "http".data ∧ ds = "80".data) ∨
              (sch = "https".data ∧ ds = "443".data) then some none
           else some (some ds)
         else none
       else none
     else none) := rfl

theorem parsePortPart_sound {sch pp : List Char} {port : Option (List Char)}
    (h : parsePortPart sch pp = some port) :
    ∀ p, port = some p → p ≠ [] ∧ (∀ c ∈ p, isDigitC c = true) ∧
      noLeadZeroB p = true ∧ digitsVal p ≤ 65535 ∧
      ¬((sch = "http".data ∧ p = "80".data) ∨
        (sch = "https".data ∧ p = "443".data)) := by
  intro p hp
  cases pp with
  | nil =>
    have h3 : (none : Option (List Char)) = port := by
      have : some (none : Option (List Char)) = some port := h
      injection this
    rw [← h3] at hp; cases hp
  | cons c ds =>
    rw [parsePortPart_cons] at h
    by_cases he : ds = []
    · rw [if_pos he] at h
      have h3 : (none : Option (List Char)) = port := by injection h
      rw [← h3] at hp; cases hp
    · rw [if_neg he] at h
      by_cases hd : ds.all isDigitC = true
      · rw [if_pos hd] at h
        by_cases hl : noLeadZeroB ds = true
        · rw [if_pos hl] at h
          by_cases hv : digitsVal ds ≤ 65535
          · rw [if_pos hv] at h
            by_cases hdef : (sch = "http".data ∧ ds = "80".data) ∨
                (sch = "https".data ∧ ds = "443".data)
            · rw [if_pos hdef] at h
              have h3 : (none : Option (List Char)) = port := by injection h
              rw [← h3] at hp; cases hp
            · rw [if_neg hdef] at h
              have h3 : (some ds : Option (List Char)) = port := by injection h
              rw [← h3] at hp
              injection hp with h4
              subst h4
              exact ⟨he, List.all_eq_true.mp hd, hl, hv, hdef⟩
          · rw [if_neg hv] at h; cases h
        · rw [if_neg hl] at h; cases h
      · rw [if_neg hd] at h; cases h

theorem parseQF_cons (c : Char) (cs : List Char) :
    parseQF (c :: cs) =
    (if isQm c then
      if (cs.takeWhile (fun k => !(isHash k))).all queryOk then
        match cs.dropWhile (fun k => !(isHash k)) with
        | [] => some (some (cs.takeWhile (fun k => !(isHash k))), none)
        | _ :: fs =>
          if fs.all fragOk then
            some (some (cs.takeWhile (fun k => !(isHash k))), some fs)
          else none
      else none
    else if isHash c then
      if cs.all fragOk then some (none, some cs) else none
    else none) := rfl

theorem parseQF_rt {q f : Option (List Char)}
    (hq : ∀ x, q = some x → ∀ c ∈ x, queryOk c = true)
    (hf : ∀ x, f = some x → ∀ c ∈ x, fragOk c = true) :
    parseQF (qfL q f) = some (q, f) := by
  cases q with
  | none =>
    cases f with
    | none => rfl
    | some y =>
      show parseQF ('#' :: y) = some (none, some y)
      rw [parseQF_cons, if_neg (by decide), if_pos (by decide),
        if_pos (List.all_eq_true.mpr (hf y rfl))]
  | some x =>
    have hx : ∀ c ∈ x, (fun k => !(isHash k)) c = true := by
      intro c hc
      simp [(queryOk_props (hq x rfl c hc)).1]
    cases f with
    | none =>
      show parseQF ('?' :: (x ++ [])) = some (some x, none)
      rw [List.append_nil, parseQF_cons, if_pos (by decide),
        takeWhile_all_sat hx, dropWhile_all_sat hx,
        if_pos (List.all_eq_true.mpr (hq x rfl))]
    | some y =>
      show parseQF ('?' :: (x ++ '#' :: y)) = some (some x, some y)
      rw [parseQF_cons, if_pos (by decide),
        takeWhile_append_sat _ hx, dropWhile_append_sat _ hx,
        takeWhile_head_false _ (by decide), dropWhile_head_false _ (by decide),
        List.append_nil, if_pos (List.all_eq_true.mpr (hq x rfl))]
      show (if y.all fragOk = true then some (some x, some y) else none) =
        some (some x, some y)
      rw [if_pos (List.all_eq_true.mpr (hf y rfl))]

theorem parseQF_sound {r : List Char} {q f : Option (List Char)}
    (h : parseQF r = some (q, f)) :
    (∀ x, q = some x → ∀ c ∈ x, queryOk c = true) ∧
    (∀ x, f = some x → ∀ c ∈ x, fragOk c = true) := by
  cases r with
  | nil =>
    have h2 : (some (none, none) :
        Option (Option (List Char) × Option (List Char))) = some (q, f) := h
    injection h2 with h3
    injection h3 with hq2 hf2
    rw [← hq2, ← hf2]
    refine ⟨?_, ?_⟩ <;> intro x hx <;> cases hx
  | cons c cs =>
    rw [parseQF_cons] at h
    by_cases hqm : isQm c = true
    · rw [if_pos hqm] at h
      by_cases hall : (cs.takeWhile (fun k => !(isHash k))).all queryOk = true
      · rw [if_pos hall] at h
        cases hdr : cs.dropWhile (fun k => !(isHash k)) with
        | nil =>
          rw [hdr] at h
          injection h with h2
          injection h2 with hq2 hf2
          rw [← hq2, ← hf2]
          refine ⟨?_, ?_⟩
          · intro x hx; injection hx with hx2; rw [← hx2]
            exact List.all_eq_true.mp hall
          · intro x hx; cases hx
        | cons d fs =>
          rw [hdr] at h
          have h9 : (if fs.all fragOk = true then
              some (some (cs.takeWhile (fun k => !(isHash k))), some fs)
            else none) = some (q, f) := h
          by_cases hfall : fs.all fragOk = true
          · rw [if_pos hfall] at h9
            injection h9 with h2
            injection h2 with hq2 hf2
            rw [← hq2, ← hf2]
            refine ⟨?_, ?_⟩
            · intro x hx; injection hx with hx2; rw [← hx2]
              exact List.all_eq_true.mp hall
            · intro x hx; injection hx with hx2; rw [← hx2]
              exact List.all_eq_true.mp hfall
          · rw [if_neg hfall] at h9; cases h9
      · rw [if_neg hall] at h; cases h
    · rw [if_neg hqm] at h
      by_cases hh : isHash c = true
      · rw [if_pos hh] at h
        by_cases hfall : cs.all fragOk = true
        · rw [if_pos hfall] at h
          injection h with h2
          injection h2 with hq2 hf2
          rw [← hq2, ← hf2]
          refine ⟨?_, ?_⟩
          · intro x hx; cases hx
          · intro x hx; injection hx with hx2; rw [← hx2]
            exact List.all_eq_true.mp hfall
        · rw [if_neg hfall] at h; cases h
      · rw [if_neg hh] at h; cases h

theorem qfL_takeWhile_qmhash (q f : Option (List Char)) :
    (qfL q f).takeWhile (fun k => !(isQm k || isHash k)) = [] := by
  cases q with
  | none =>
    cases f with
    | none => rfl
    | some y => exact takeWhile_head_false _ (by decide)
  | some x => exact takeWhile_head_false _ (by decide)

theorem qfL_dropWhile_qmhash (q f : Option (List Char)) :
    (qfL q f).dropWhile (fun k => !(isQm k || isHash k)) = qfL q f := by
  cases q with
  | none =>
    cases f with
    | none => rfl
    | some y => exact dropWhile_head_false _ (by decide)
  | some x => exact dropWhile_head_false _ (by decide)

theorem joinSegs_chars {segs : List (List Char)}
    (h : ∀ s ∈ segs, ∀ c ∈ s, segOk c = true) :
    ∀ c ∈ joinSegs segs, segOk c = true ∨ c = '/' := by
  induction segs with
  | nil => intro c hc; cases hc
  | cons s rest ih =>
    intro c hc
    rcases hc with hc | hc
    · exact Or.inr rfl
    next hc2 =>
      rcases List.mem_append.mp hc2 with h3 | h3
      · exact Or.inl (h s (by simp) c h3)
      · exact ih (fun t ht => h t (by simp [ht])) c h3

theorem parseTail_nil : parseTail [] = some ([[]], none, none) := rfl

theorem parseTail_cons (c : Char) (cs : List Char) :
    parseTail (c :: cs) =
    (if isSlashy c then
      if (splitSlash (cs.takeWhile (fun k => !(isQm k || isHash k)))).all
          (fun s => s.all segOk) then
        match parseQF (cs.dropWhile (fun k => !(isQm k || isHash k))) with
        | none => none
        | some (q, f) =>
          some (normSegs [] (splitSlash
            (cs.takeWhile (fun k => !(isQm k || isHash k)))), q, f)
      else none
    else
      match parseQF (c :: cs) with
      | none => none
      | some (q, f) => some ([[]], q, f)) := rfl

theorem parseTail_rt {path : List (List Char)} {q f : Option (List Char)}
    (hpne : path ≠ [])
    (hpok : ∀ s ∈ path, (s ≠ ".".data ∧ s ≠ "..".data) ∧ ∀ c ∈ s, segOk c = true)
    (hq : ∀ x, q = some x → ∀ c ∈ x, queryOk c = true)
    (hf : ∀ x, f = some x → ∀ c ∈ x, fragOk c = true) :
    parseTail (joinSegs path ++ qfL q f) = some (path, q, f) := by
  cases path with
  | nil => exact absurd rfl hpne
  | cons s rest =>
    have hchars : ∀ c ∈ s ++ joinSegs rest, (fun k => !(isQm k || isHash k)) c = true := by
      intro c hc
      rcases List.mem_append.mp hc with h3 | h3
      · simp [(segOk_props ((hpok s (by simp)).2 c h3)).2.1]
      · rcases joinSegs_chars (fun t ht => (hpok t (by simp [ht])).2) c h3 with h4 | h4
        · simp [(segOk_props h4).2.1]
        · rw [h4]; decide
    show parseTail ('/' :: ((s ++ joinSegs rest) ++ qfL q f)) = some (s :: rest, q, f)
    rw [parseTail_cons, if_pos (by decide)]
    rw [takeWhile_append_sat _ hchars, dropWhile_append_sat _ hchars,
      qfL_takeWhile_qmhash, qfL_dropWhile_qmhash, List.append_nil]
    have hnosl : ∀ t ∈ s :: rest, ∀ c ∈ t, isSlashy c = false := by
      intro t ht c hc
      exact (segOk_props ((hpok t ht).2 c hc)).1
    rw [splitSlash_join hnosl]
    rw [if_pos (List.all_eq_true.mpr (by
      intro t ht
      exact List.all_eq_true.mpr ((hpok t ht).2)))]
    rw [parseQF_rt hq hf]
    rw [normSegs_dotfree [] (fun t ht => (hpok t ht).1) (by simp)]
    rfl

theorem parseTail_sound {r : List Char} {path : List (List Char)}
    {q f : Option (List Char)}
    (h : parseTail r = some (path, q, f)) :
    path ≠ [] ∧
    (∀ s ∈ path, (s ≠ ".".data ∧ s ≠ "..".data) ∧ ∀ c ∈ s, segOk c = true) ∧
    (∀ x, q = some x → ∀ c ∈ x, queryOk c = true) ∧
    (∀ x, f = some x → ∀ c ∈ x, fragOk c = true) := by
  cases r with
  | nil =>
    have h2 : (some ([[]], (none : Option (List Char)), (none : Option (List Char))) :
        Option (List (List Char) × Option (List Char) × Option (List Char))) =
        some (path, q, f) := h
    injection h2 with h3
    injection h3 with hp h4
    injection h4 with hq2 hf2
    rw [← hp, ← hq2, ← hf2]
    refine ⟨by simp, ?_, ?_, ?_⟩
    · intro s hs; simp at hs; rw [hs]
      exact ⟨by decide, by intro c hc; cases hc⟩
    · intro x hx; cases hx
    · intro x hx; cases hx
  | cons c cs =>
    rw [parseTail_cons] at h
    by_cases hsl : isSlashy c = true
    · rw [if_pos hsl] at h
      by_cases hall : (splitSlash (cs.takeWhile (fun k => !(isQm k || isHash k)))).all
          (fun s => s.all segOk) = true
      · rw [if_pos hall] at h
        cases hqf : parseQF (cs.dropWhile (fun k => !(isQm k || isHash k))) with
        | none => rw [hqf] at h; cases h
        | some qf =>
          obtain ⟨q2, f2⟩ := qf
          rw [hqf] at h
          injection h with h3
          injection h3 with hp h4
          injection h4 with hq2 hf2
          rw [← hp, ← hq2, ← hf2]
          have hraw : ∀ s ∈ splitSlash (cs.takeWhile (fun k => !(isQm k || isHash k))),
              ∀ c ∈ s, segOk c = true := by
            intro s hs
            exact List.all_eq_true.mp (List.all_eq_true.mp hall s hs)
          refine ⟨normSegs_ne_nil _ _, ?_, (parseQF_sound hqf).1, (parseQF_sound hqf).2⟩
          exact normSegs_sound (by intro s hs; cases hs) hraw
      · rw [if_neg hall] at h; cases h
    · rw [if_neg hsl] at h
      cases hqf : parseQF (c :: cs) with
      | none => rw [hqf] at h; cases h
      | some qf =>
        obtain ⟨q2, f2⟩ := qf
        rw [hqf] at h
        injection h with h3
        injection h3 with hp h4
        injection h4 with hq2 hf2
        rw [← hp, ← hq2, ← hf2]
        refine ⟨by simp, ?_, (parseQF_sound hqf).1, (parseQF_sound hqf).2⟩
        intro s hs; simp at hs; rw [hs]
        exact ⟨by decide, by intro k hk; cases hk⟩

/-! ## Character facts about serialized URLs -/

theorem lowerL_id {l : List Char} (h : ∀ c ∈ l, lowerChar c = c) : lowerL l = l := by
  induction l with
  | nil => rfl
  | cons a t ih =>
    show lowerChar a :: lowerL t = a :: t
    rw [h a (by simp), ih (fun c hc => h c (by simp [hc]))]

theorem hostCharOk_not_slashy {c : Char} (h : hostCharOk c = true) :
    isSlashy c = false := by
  have h2 := (hostCharOk_props h).2.1
  simp only [isAuthEnd, Bool.or_eq_false_iff] at h2
  exact h2.1.1

theorem portL_chars {port : Option (List Char)}
    (h : ∀ p, port = some p → ∀ c ∈ p, isDigitC c = true) :
    ∀ c ∈ portL port, isDigitC c = true ∨ c = ':' := by
  cases port with
  | none => intro c hc; cases hc
  | some p =>
    intro c hc
    rcases hc with hc | hc
    · exact Or.inr rfl
    next hc2 => exact Or.inl (h p rfl c hc2)

theorem qfL_chars {q f : Option (List Char)}
    (hq : ∀ x, q = some x → ∀ c ∈ x, queryOk c = true)
    (hf : ∀ x, f = some x → ∀ c ∈ x, fragOk c = true) :
    ∀ c ∈ qfL q f, printableOk c := by
  intro c hc
  rcases List.mem_append.mp hc with h3 | h3
  · cases q with
    | none => cases h3
    | some x =>
      rcases h3 with h4 | h4
      · exact ⟨by decide, by decide⟩
      next h5 => exact (queryOk_props (hq x rfl c h5)).2
  · cases f with
    | none => cases h3
    | some x =>
      rcases h3 with h4 | h4
      · exact ⟨by decide, by decide⟩
      next h5 => exact fragOk_props (hf x rfl c h5)

theorem serializeL_chars {u : UrlParts} (hu : UrlInv u) :
    ∀ c ∈ serializeL u, printableOk c := by
  intro c hc
  unfold serializeL at hc
  simp only [List.append_assoc, List.mem_append] at hc
  rcases hc with h1 | h1 | h1 | h1 | h1 | h1
  · rcases hu.scheme_ok with hs | hs
    · rw [hs] at h1
      exact (by decide : ∀ x ∈ "http".data, printableOk x) c h1
    · rw [hs] at h1
      exact (by decide : ∀ x ∈ "https".data, printableOk x) c h1
  · exact (by decide : ∀ x ∈ "://".data, printableOk x) c h1
  · exact (hostCharOk_props (hu.host_ok c h1)).2.2.2
  · rcases portL_chars (fun p hp => (hu.port_ok p hp).2.1) c h1 with h | h
    · exact (isDigitC_props h).2.2
    · rw [h]; exact ⟨by decide, by decide⟩
  · rcases joinSegs_chars (fun s hs => (hu.path_ok s hs).2) c h1 with h | h
    · exact (segOk_props h).2.2
    · rw [h]; exact ⟨by decide, by decide⟩
  · exact qfL_chars hu.query_ok hu.frag_ok c h1

theorem prepInput_id {l : List Char} (h : ∀ c ∈ l, printableOk c) :
    prepInput l = l := by
  unfold prepInput trimC0
  rw [trimBy_id (fun c hc => (printable_not_special (h c hc)).1)]
  exact filter_id (fun c hc => (printable_not_special (h c hc)).2.1)

/-! ## Round trip of the URL parser on serialized URLs -/

theorem parseAuth_rt {u : UrlParts} (hu : UrlInv u) :
    parseAuth u.scheme
      ((u.host ++ portL u.port) ++ (joinSegs u.path ++ qfL u.query u.fragment)) =
    some u := by
  have hauth : ∀ c ∈ u.host ++ portL u.port, (!(isAuthEnd c)) = true := by
    intro c hc
    rcases List.mem_append.mp hc with h1 | h1
    · simp [(hostCharOk_props (hu.host_ok c h1)).2.1]
    · rcases portL_chars (fun p hp => (hu.port_ok p hp).2.1) c h1 with h2 | h2
      · simp [(isDigitC_props h2).2.1]
      · rw [h2]; decide
  obtain ⟨s0, rest0, hpath⟩ := List.exists_cons_of_ne_nil hu.path_ne
  have hjoin : joinSegs u.path ++ qfL u.query u.fragment =
      '/' :: ((s0 ++ joinSegs rest0) ++ qfL u.query u.fragment) := by
    rw [hpath]; rfl
  have htake : ((u.host ++ portL u.port) ++
      (joinSegs u.path ++ qfL u.query u.fragment)).takeWhile
        (fun c => !(isAuthEnd c)) = u.host ++ portL u.port := by
    rw [takeWhile_append_sat _ hauth, hjoin, takeWhile_head_false _ (by decide),
      List.append_nil]
  have hdrop : ((u.host ++ portL u.port) ++
      (joinSegs u.path ++ qfL u.query u.fragment)).dropWhile
        (fun c => !(isAuthEnd c)) = joinSegs u.path ++ qfL u.query u.fragment := by
    rw [dropWhile_append_sat _ hauth, hjoin, dropWhile_head_false _ (by decide)]
  have hhostcol : ∀ c ∈ u.host, (!(isColon c)) = true := by
    intro c hc
    simp [(hostCharOk_props (hu.host_ok c hc)).1]
  have htakeh : (u.host ++ portL u.port).takeWhile (fun c => !(isColon c)) = u.host := by
    cases hp : u.port with
    | none =>
      show (u.host ++ []).takeWhile (fun c => !(isColon c)) = u.host
      rw [List.append_nil]
      exact takeWhile_all_sat hhostcol
    | some p =>
      show (u.host ++ ':' :: p).takeWhile (fun c => !(isColon c)) = u.host
      rw [takeWhile_append_sat _ hhostcol, takeWhile_head_false _ (by decide),
        List.append_nil]
  have hdroph : (u.host ++ portL u.port).dropWhile (fun c => !(isColon c)) =
      portL u.port := by
    cases hp : u.port with
    | none =>
      show (u.host ++ []).dropWhile (fun c => !(isColon c)) = []
      rw [List.append_nil]
      exact dropWhile_all_sat hhostcol
    | some p =>
      show (u.host ++ ':' :: p).dropWhile (fun c => !(isColon c)) = ':' :: p
      rw [dropWhile_append_sat _ hhostcol, dropWhile_head_false _ (by decide)]
  have hlow : lowerL u.host = u.host :=
    lowerL_id (fun c hc => (hostCharOk_props (hu.host_ok c hc)).2.2.1)
  have hport : parsePortPart u.scheme (portL u.port) = some u.port := by
    cases hp : u.port with
    | none => rfl
    | some p =>
      obtain ⟨hne, hdig, hlz, hval, hdef⟩ := hu.port_ok p hp
      exact parsePortPart_rt_some hne hdig hlz hval hdef
  have htail : parseTail (joinSegs u.path ++ qfL u.query u.fragment) =
      some (u.path, u.query, u.fragment) :=
    parseTail_rt hu.path_ne hu.path_ok hu.query_ok hu.frag_ok
  unfold parseAuth
  rw [htake, htakeh, hlow, hdrop, hdroph,
    if_pos (And.intro hu.host_ne (List.all_eq_true.mpr hu.host_ok)), hport, htail]

theorem parseL_serializeL {u : UrlParts} (hu : UrlInv u) :
    parseL (serializeL u) = some u := by
  have hpr : prepInput (serializeL u) = serializeL u :=
    prepInput_id (serializeL_chars hu)
  have hser : serializeL u = u.scheme ++ ':' :: '/' :: '/' ::
      ((u.host ++ portL u.port) ++ (joinSegs u.path ++ qfL u.query u.fragment)) := by
    unfold serializeL
    rw [List.append_assoc, List.append_assoc, List.append_assoc, List.append_assoc,
      show ("://".data : List Char) = [':', '/', '/'] from by decide]
    rw [show ((u.host ++ (portL u.port ++ (joinSegs u.path ++ qfL u.query u.fragment))) :
        List Char) =
      (u.host ++ portL u.port) ++ (joinSegs u.path ++ qfL u.query u.fragment) from by
        rw [List.append_assoc]]
    rfl
  have hschcol : ∀ c ∈ u.scheme, (!(isColon c)) = true := by
    rcases hu.scheme_ok with hs | hs <;> rw [hs] <;> decide
  have htake : (serializeL u).takeWhile (fun c => !(isColon c)) = u.scheme := by
    rw [hser, takeWhile_append_sat _ hschcol, takeWhile_head_false _ (by decide),
      List.append_nil]
  have hdrop : (serializeL u).dropWhile (fun c => !(isColon c)) = ':' :: '/' :: '/' ::
      ((u.host ++ portL u.port) ++ (joinSegs u.path ++ qfL u.query u.fragment)) := by
    rw [hser, dropWhile_append_sat _ hschcol, dropWhile_head_false _ (by decide)]
  have hlowsch : lowerL u.scheme = u.scheme := by
    rcases hu.scheme_ok with hs | hs <;> rw [hs] <;> decide
  obtain ⟨h0, hs0, hhost⟩ := List.exists_cons_of_ne_nil hu.host_ne
  have hl2 : (u.host ++ portL u.port) ++ (joinSegs u.path ++ qfL u.query u.fragment) =
      h0 :: (hs0 ++ portL u.port ++ (joinSegs u.path ++ qfL u.query u.fragment)) := by
    rw [hhost]; simp
  have hslash : ('/' :: '/' ::
      ((u.host ++ portL u.port) ++ (joinSegs u.path ++ qfL u.query u.fragment))).dropWhile
        isSlashy =
      (u.host ++ portL u.port) ++ (joinSegs u.path ++ qfL u.query u.fragment) := by
    show (['/', '/'] ++
      ((u.host ++ portL u.port) ++ (joinSegs u.path ++ qfL u.query u.fragment))).dropWhile
        isSlashy = _
    rw [dropWhile_append_sat _ (by decide), hl2,
      dropWhile_head_false _
        (hostCharOk_not_slashy (hu.host_ok h0 (by rw [hhost]; simp))), ← hl2]
  unfold parseL
  rw [hpr, hdrop, htake, hlowsch]
  show (if u.scheme = "http".data ∨ u.scheme = "https".data then
    parseAuth u.scheme (('/' :: '/' ::
      ((u.host ++ portL u.port) ++ (joinSegs u.path ++ qfL u.query u.fragment))).dropWhile
        isSlashy)
    else none) = some u
  rw [if_pos hu.scheme_ok, hslash]
  exact parseAuth_rt hu

/-! ## Soundness: every parsed URL satisfies the invariant -/

theorem parseAuth_sound {sch r : List Char} {u : UrlParts}
    (hsch : sch = "http".data ∨ sch = "https".data)
    (h : parseAuth sch r = some u) : UrlInv u := by
  unfold parseAuth at h
  by_cases hcond :
      lowerL ((r.takeWhile (fun c => !(isAuthEnd c))).takeWhile (fun c => !(isColon c))) ≠ [] ∧
      (lowerL ((r.takeWhile (fun c => !(isAuthEnd c))).takeWhile (fun c => !(isColon c)))).all
        hostCharOk
  · rw [if_pos hcond] at h
    cases hpp : parsePortPart sch
        ((r.takeWhile (fun c => !(isAuthEnd c))).dropWhile (fun c => !(isColon c))) with
    | none => rw [hpp] at h; cases h
    | some port =>
      rw [hpp] at h
      cases ht : parseTail (r.dropWhile (fun c => !(isAuthEnd c))) with
      | none => rw [ht] at h; cases h
      | some tail =>
        obtain ⟨path, q, f⟩ := tail
        rw [ht] at h
        injection h with h2
        obtain ⟨hpne, hpok, hqok, hfok⟩ := parseTail_sound ht
        rw [← h2]
        exact {
          scheme_ok := hsch
          host_ne := hcond.1
          host_ok := List.all_eq_true.mp hcond.2
          port_ok := parsePortPart_sound hpp
          path_ne := hpne
          path_ok := hpok
          query_ok := hqok
          frag_ok := hfok }
  · rw [if_neg hcond] at h; cases h

theorem parseL_sound {input : List Char} {u : UrlParts}
    (h : parseL input = some u) : UrlInv u := by
  unfold parseL at h
  cases hm : (prepInput input).dropWhile (fun c => !(isColon c)) with
  | nil =>
    rw [hm] at h
    cases h
  | cons c afterColon =>
    rw [hm] at h
    have h2 : (if lowerL ((prepInput input).takeWhile (fun c => !(isColon c))) = "http".data ∨
        lowerL ((prepInput input).takeWhile (fun c => !(isColon c))) = "https".data then
        parseAuth (lowerL ((prepInput input).takeWhile (fun c => !(isColon c))))
          (afterColon.dropWhile isSlashy)
      else none) = some u := h
    by_cases hsch : lowerL ((prepInput input).takeWhile (fun c => !(isColon c))) = "http".data ∨
        lowerL ((prepInput input).takeWhile (fun c => !(isColon c))) = "https".data
    · rw [if_pos hsch] at h2
      exact parseAuth_sound hsch h2
    · rw [if_neg hsch] at h2; cases h2

/-! ## Facts about the sanitizer on serialized URLs -/

theorem startsWithL_refl_append (p rest : List Char) :
    startsWithL p (p ++ rest) = true := by
  induction p with
  | nil => rfl
  | cons a ps ih => simp [startsWithL, ih]

theorem startsWithL_head_ne {p c : Char} (ps cs : List Char) (h : (p == c) = false) :
    startsWithL (p :: ps) (c :: cs) = false := by
  simp [startsWithL, h]

theorem serializeL_decomp (u : UrlParts) :
    serializeL u = u.scheme ++ ':' :: '/' :: '/' ::
      ((u.host ++ portL u.port) ++ (joinSegs u.path ++ qfL u.query u.fragment)) := by
  unfold serializeL
  rw [List.append_assoc, List.append_assoc, List.append_assoc, List.append_assoc,
    show ("://".data : List Char) = [':', '/', '/'] from by decide]
  rw [show ((u.host ++ (portL u.port ++ (joinSegs u.path ++ qfL u.query u.fragment))) :
      List Char) =
    (u.host ++ portL u.port) ++ (joinSegs u.path ++ qfL u.query u.fragment) from by
      rw [List.append_assoc]]
  rfl

theorem serializeL_head {u : UrlParts} (hu : UrlInv u) :
    ∃ t, serializeL u = 'h' :: 't' :: 't' :: 'p' :: t := by
  rw [serializeL_decomp]
  rcases hu.scheme_ok with hs | hs <;> rw [hs]
  · exact ⟨_, rfl⟩
  · exact ⟨_, rfl⟩

theorem serializeL_ne_nil {u : UrlParts} (hu : UrlInv u) : serializeL u ≠ [] := by
  obtain ⟨t, ht⟩ := serializeL_head hu
  rw [ht]; simp

theorem serializeL_trimJS {u : UrlParts} (hu : UrlInv u) :
    trimJS (serializeL u) = serializeL u :=
  trimBy_id (fun c hc => (printable_not_special (serializeL_chars hu c hc)).2.2)

theorem serializeL_not_dangerous {u : UrlParts} (hu : UrlInv u) :
    dangerousTestL (serializeL u) = false := by
  obtain ⟨t, ht⟩ := serializeL_head hu
  have hlow : lowerL (serializeL u) = 'h' :: 't' :: 't' :: 'p' :: lowerL t := by
    rw [ht]; rfl
  unfold dangerousTestL
  rw [hlow, startsWithL_head_ne _ _ (by decide), startsWithL_head_ne _ _ (by decide),
    startsWithL_head_ne _ _ (by decide), startsWithL_head_ne _ _ (by decide),
    startsWithL_head_ne _ _ (by decide)]
  rfl

theorem serializeL_schemeTest {u : UrlParts} (hu : UrlInv u) :
    schemeTestL (serializeL u) = true := by
  unfold schemeTestL
  rw [serializeL_decomp]
  rcases hu.scheme_ok with hs | hs <;> rw [hs]
  · have : lowerL ("http".data ++ ':' :: '/' :: '/' ::
        ((u.host ++ portL u.port) ++ (joinSegs u.path ++ qfL u.query u.fragment))) =
        "http://".data ++ lowerL
          ((u.host ++ portL u.port) ++ (joinSegs u.path ++ qfL u.query u.fragment)) := by
      show List.map lowerChar _ = _
      rw [show ("http".data ++ ':' :: '/' :: '/' ::
          ((u.host ++ portL u.port) ++ (joinSegs u.path ++ qfL u.query u.fragment)) :
          List Char) =
        "http://".data ++
          ((u.host ++ portL u.port) ++ (joinSegs u.path ++ qfL u.query u.fragment)) from rfl]
      rw [List.map_append]
      rfl
    rw [this, startsWithL_refl_append]
    rfl
  · have : lowerL ("https".data ++ ':' :: '/' :: '/' ::
        ((u.host ++ portL u.port) ++ (joinSegs u.path ++ qfL u.query u.fragment))) =
        "https://".data ++ lowerL
          ((u.host ++ portL u.port) ++ (joinSegs u.path ++ qfL u.query u.fragment)) := by
      show List.map lowerChar _ = _
      rw [show ("https".data ++ ':' :: '/' :: '/' ::
          ((u.host ++ portL u.port) ++ (joinSegs u.path ++ qfL u.query u.fragment)) :
          List Char) =
        "https://".data ++
          ((u.host ++ portL u.port) ++ (joinSegs u.path ++ qfL u.query u.fragment)) from rfl]
      rw [List.map_append]
      rfl
    rw [this, startsWithL_refl_append, Bool.or_true]

theorem sanitize_serializeL {u : UrlParts} (hu : UrlInv u) :
    sanitizeUrlL (serializeL u) = some (serializeL u) := by
  unfold sanitizeUrlL
  rw [serializeL_trimJS hu]
  rw [if_neg (serializeL_ne_nil hu),
    if_neg (by rw [serializeL_not_dangerous hu]; exact Bool.false_ne_true),
    if_pos (serializeL_schemeTest hu), parseL_serializeL hu]
  show (if u.scheme = "http".data ∨ u.scheme = "https".data then
    some (serializeL u) else none) = some (serializeL u)
  rw [if_pos hu.scheme_ok]

theorem sanitizeUrlL_some_inv {x s : List Char} (h : sanitizeUrlL x = some s) :
    ∃ u, UrlInv u ∧ s = serializeL u := by
  unfold sanitizeUrlL at h
  by_cases h1 : trimJS x = []
  · rw [if_pos h1] at h; cases h
  · rw [if_neg h1] at h
    by_cases h2 : dangerousTestL (trimJS x) = true
    · rw [if_pos h2] at h; cases h
    · rw [if_neg h2] at h
      cases hp : parseL (if schemeTestL (trimJS x) then trimJS x
          else "https://".data ++ trimJS x) with
      | none => rw [hp] at h; cases h
      | some u =>
        rw [hp] at h
        have h5 : (if u.scheme = "http".data ∨ u.scheme = "https".data then
            some (serializeL u) else none) = some s := h
        by_cases h3 : u.scheme = "http".data ∨ u.scheme = "https".data
        · rw [if_pos h3] at h5
          injection h5 with h4
          exact ⟨u, parseL_sound hp, h4.symm⟩
        · rw [if_neg h3] at h5; cases h5

theorem sanitizeUrlL_idem {x s : List Char} (h : sanitizeUrlL x = some s) :
    sanitizeUrlL s = some s := by
  obtain ⟨u, hu, hs⟩ := sanitizeUrlL_some_inv h
  rw [hs]
  exact sanitize_serializeL hu

theorem sanitizeUrl_eq_map (url : String) :
    sanitizeUrl url = (sanitizeUrlL url.data).map (fun l => String.mk l) := rfl

theorem serializeL_startsWith {u : UrlParts} (hu : UrlInv u) :
    (startsWithL "http://".data (serializeL u) ||
     startsWithL "https://".data (serializeL u)) = true := by
  rw [serializeL_decomp]
  rcases hu.scheme_ok with hs | hs <;> rw [hs]
  · rw [show ("http".data ++ ':' :: '/' :: '/' ::
        ((u.host ++ portL u.port) ++ (joinSegs u.path ++ qfL u.query u.fragment)) :
        List Char) =
      "http://".data ++
        ((u.host ++ portL u.port) ++ (joinSegs u.path ++ qfL u.query u.fragment)) from rfl]
    rw [startsWithL_refl_append]
    rfl
  · rw [show ("https".data ++ ':' :: '/' :: '/' ::
        ((u.host ++ portL u.port) ++ (joinSegs u.path ++ qfL u.query u.fragment)) :
        List Char) =
      "https://".data ++
        ((u.host ++ portL u.port) ++ (joinSegs u.path ++ qfL u.query u.fragment)) from rfl]
    rw [startsWithL_refl_append, Bool.or_true]

theorem sanitize_of_trim_nil {x : List Char} (h : trimJS x = []) :
    sanitizeUrlL x = none := by
  unfold sanitizeUrlL
  rw [if_pos h]

theorem sanitize_of_dangerous {x : List Char} (h : dangerousTestL (trimJS x) = true) :
    sanitizeUrlL x = none := by
  unfold sanitizeUrlL
  by_cases h1 : trimJS x = []
  · rw [if_pos h1]
  · rw [if_neg h1, if_pos h]

theorem sanitize_of_noscheme {x : List Char} (h1 : trimJS x ≠ [])
    (h2 : dangerousTestL (trimJS x) = false) (h3 : schemeTestL (trimJS x) = false) :
    sanitizeUrlL x = (parseL ("https://".data ++ trimJS x)).map serializeL := by
  unfold sanitizeUrlL
  rw [if_neg h1, if_neg (by rw [h2]; exact Bool.false_ne_true),
    if_neg (by rw [h3]; exact Bool.false_ne_true)]
  cases hp : parseL ("https://".data ++ trimJS x) with
  | none => rfl
  | some u =>
    show (if u.scheme = "http".data ∨ u.scheme = "https".data then
      some (serializeL u) else none) = some (serializeL u)
    rw [if_pos (parseL_sound hp).scheme_ok]

theorem sanitize_of_parse_fail {x : List Char}
    (h : parseL (if schemeTestL (trimJS x) then trimJS x
                 else "https://".data ++ trimJS x) = none) :
    sanitizeUrlL x = none := by
  unfold sanitizeUrlL
  by_cases h1 : trimJS x = []
  · rw [if_pos h1]
  · rw [if_neg h1]
    by_cases h2 : dangerousTestL (trimJS x) = true
    · rw [if_pos h2]
    · rw [if_neg h2, h]

/-! ## Editor lemmas -/

theorem handleFontSize_no_selection {st : EditorState} (size : Nat)
    (hsel : st.selection = none) : handleFontSize size st = st := by
  unfold handleFontSize
  rw [hsel]

theorem handleFontSize_disabled {st : EditorState} (size : Nat)
    (hdis : st.disabled = true) : handleFontSize size st = st := by
  unfold handleFontSize
  cases hsel : st.selection with
  | none => rfl
  | some r =>
    show (if st.disabled = true then st else _) = st
    rw [if_pos hdis]

theorem handleFontSize_collapsed {st : EditorState} {r : SelRange} (size : Nat)
    (hsel : st.selection = some r) (hc : r.startPos = r.endPos) :
    handleFontSize size st = st := by
  unfold handleFontSize
  rw [hsel]
  show (if st.disabled = true then st else if r.startPos = r.endPos then st else _) = st
  by_cases hdis : st.disabled = true
  · rw [if_pos hdis]
  · rw [if_neg hdis, if_pos hc]

theorem handleFontSize_active {st : EditorState} {r : SelRange} (size : Nat)
    (hsel : st.selection = some r) (hdis : st.disabled = false)
    (hne : r.startPos ≠ r.endPos) :
    handleFontSize size st =
      { st with
        content := st.content.take r.startPos ++
          ((st.content.take r.endPos).drop r.startPos).map (wrapNode size) ++
          st.content.drop r.endPos
        selection := none
        exn := true } := by
  unfold handleFontSize
  rw [hsel]
  show (if st.disabled = true then st else if r.startPos = r.endPos then st else _) = _
  rw [if_neg (by rw [hdis]; exact Bool.false_ne_true), if_neg hne]

theorem execCommand_noop {st : EditorState}
    (eff : String → Option String → List DomNode → List DomNode)
    (command : String) (value : Option String)
    (h : st.hasSelection = false ∨ st.disabled = true) :
    execCommand eff command value st = st := by
  unfold execCommand
  rw [if_pos h]

theorem execCommand_run {st : EditorState}
    (eff : String → Option String → List DomNode → List DomNode)
    (command : String) (value : Option String)
    (h1 : st.hasSelection = true) (h2 : st.disabled = false) :
    execCommand eff command value st =
      { st with
        content := eff command value st.content
        emitted := st.emitted ++ [eff command value st.content]
        commands := st.commands ++ [(command, value)]
        focused := true } := by
  unfold execCommand
  rw [if_neg (by rw [h1, h2]; simp)]

theorem textContent_wrapNode (size : Nat) (n : DomNode) :
    textContent (wrapNode size n) = textContent n := by
  cases n with
  | text s =>
    show textContentList [DomNode.text s] = s
    show textContent (DomNode.text s) ++ textContentList [] = s
    exact String.append_empty s
  | element tag fs ch => rfl

theorem textContentList_map_wrap (size : Nat) (l : List DomNode) :
    textContentList (l.map (wrapNode size)) = textContentList l := by
  induction l with
  | nil => rfl
  | cons n rest ih =>
    show textContent (wrapNode size n) ++ textContentList (rest.map (wrapNode size)) =
      textContent n ++ textContentList rest
    rw [textContent_wrapNode, ih]

/-! ## Sample values used to instantiate theorems with hypotheses -/

/-- Identity document effect used as a stand-in for the browser's native
command implementation. -/
def sampleEff : String → Option String → List DomNode → List DomNode :=
  fun _ _ content => content

/-- Enabled editor state with two text nodes and the first one selected. -/
def sampleState : EditorState :=
  { content := [DomNode.text "hello", DomNode.text "world"]
    selection := some ⟨0, 1⟩
    hasSelection := true
    disabled := false
    emitted := []
    commands := []
    alerts := 0
    focused := false
    exn := false }

/-- Disabled editor state with a cached selection. -/
def sampleDisabled : EditorState :=
  { sampleState with disabled := true }

/-- Editor state with a collapsed cached selection. -/
def sampleCollapsed : EditorState :=
  { sampleState with selection := some ⟨1, 1⟩ }

/-! ## Claims -/

/-- C1: for every input string, if `sanitizeUrl` returns a string, the
returned string is an absolute URL whose scheme is exactly `http` or `https`
(it begins with `http://` or `https://` and re-parses as a URL with that
scheme); in particular `sanitizeUrl "javascript:alert(1)"` returns `none`. -/
theorem C1_accepts_only_http_https :
    (∀ x s : String, sanitizeUrl x = some s →
      (startsWithL "http://".data s.data || startsWithL "https://".data s.data) = true ∧
      ∃ u, parseL s.data = some u ∧
        (u.scheme = "http".data ∨ u.scheme = "https".data)) ∧
    sanitizeUrl "javascript:alert(1)" = none := by
  constructor
  · intro x s h
    rw [sanitizeUrl_eq_map] at h
    obtain ⟨l, hl, hmk⟩ := Option.map_eq_some'.mp h
    obtain ⟨u, hu, hlu⟩ := sanitizeUrlL_some_inv hl
    have hdata : s.data = l := by rw [← hmk]
    subst hlu
    constructor
    · rw [hdata]; exact serializeL_startsWith hu
    · exact ⟨u, by rw [hdata]; exact parseL_serializeL hu, hu.scheme_ok⟩
  · decide

theorem C1_accepts_only_http_https_witness :
    (startsWithL "http://".data ("https://example.com/" : String).data ||
     startsWithL "https://".data ("https://example.com/" : String).data) = true ∧
    ∃ u, parseL ("https://example.com/" : String).data = some u ∧
      (u.scheme = "http".data ∨ u.scheme = "https".data) :=
  C1_accepts_only_http_https.1 "example.com" "https://example.com/" (by decide)

/-- C2: every input whose trimmed form begins, case-insensitively, with one of
the denylisted schemes (`javascript:`, `data:`, `vbscript:`, `file:`,
`about:`) is rejected; the check runs on the raw trimmed input before any
default scheme is prepended, so omitting `http://` does not bypass it. -/
theorem C2_denylist_before_prepend :
    ∀ (x p : String),
      p ∈ (["javascript:", "data:", "vbscript:", "file:", "about:"] : List String) →
      startsWithL p.data (lowerL (trimJS x.data)) = true →
      sanitizeUrl x = none := by
  intro x p hp hst
  have hd : dangerousTestL (trimJS x.data) = true := by
    unfold dangerousTestL
    fin_cases hp <;> rw [hst] <;> simp
  rw [sanitizeUrl_eq_map, sanitize_of_dangerous hd]
  rfl

theorem C2_denylist_before_prepend_witness :
    sanitizeUrl "JaVaScRiPt:alert(1)" = none :=
  C2_denylist_before_prepend "JaVaScRiPt:alert(1)" "javascript:" (by decide) (by decide)

/-- C3: `sanitizeUrl` is idempotent on its successes: whenever
`sanitizeUrl x` returns a string `s`, `sanitizeUrl s` returns `s`. -/
theorem C3_idempotent :
    ∀ x s : String, sanitizeUrl x = some s → sanitizeUrl s = some s := by
  intro x s h
  rw [sanitizeUrl_eq_map] at h ⊢
  obtain ⟨l, hl, hmk⟩ := Option.map_eq_some'.mp h
  have hidem := sanitizeUrlL_idem hl
  have hdata : s.data = l := by rw [← hmk]
  rw [hdata, hidem]
  show some (String.mk l) = some s
  rw [hmk]

theorem C3_idempotent_witness :
    sanitizeUrl "https://example.com/" = some "https://example.com/" :=
  C3_idempotent "example.com" "https://example.com/" (by decide)

/-- C4 evaluation: contrary to the claim (and to the spec's
`sanitize("ftp://example.com") == reject`), the code does not reject
`ftp://example.com`: the scheme regex does not match, so `https://` is
prepended, and the WHATWG parser reads `https://ftp://example.com` as host
`ftp` with path `//example.com`; the final protocol check is unreachable.
The code's own comment says only `http`/`https` are allowed, so this is a
slip in the code, not in the claim. -/
theorem C4_ftp_not_rejected :
    sanitizeUrl "ftp://example.com" = some "https://ftp//example.com" := by decide

/-- C5 (code bug evaluation): contrary to the claim (and to the spec's
"after insertion, collapse the cursor to immediately after the inserted
fragment"), the code never reaches the cursor placement, the emission or the
refocus: `range.insertNode(fragment)` moves the fragment's children into the
document and leaves the fragment empty, so the following
`setStartAfter(fragment.lastChild!)` receives `null` and throws a
`TypeError`. At a concrete enabled state with a valid non-collapsed cached
selection, the handler aborts with the exception after the contents have
already been replaced: nothing is emitted, the editor is not refocused, and
no collapsed editor-content range is cached. The non-null assertion
`fragment.lastChild!` shows the cursor placement was the intent, so the code,
not the claim, is wrong. -/
theorem C5_fontsize_crash :
    (handleFontSize 16 sampleState).exn = true ∧
    (handleFontSize 16 sampleState).content =
      [DomNode.element "span" (some 16) [DomNode.text "hello"],
       DomNode.text "world"] ∧
    (handleFontSize 16 sampleState).emitted = sampleState.emitted ∧
    (handleFontSize 16 sampleState).focused = sampleState.focused ∧
    (handleFontSize 16 sampleState).selection = none ∧
    sampleState.exn = false ∧ sampleState.disabled = false ∧
    sampleState.selection = some ⟨0, 1⟩ :=
  ⟨rfl, rfl, rfl, rfl, rfl, rfl, rfl, rfl⟩

/-- C6: applying the font-size command with size `n` to a valid non-collapsed
cached range whose contents are plain text nodes produces, in place of the
selected contents, `span` elements carrying an explicit inline font-size of
`n` pixels, and the concatenated text content of the inserted nodes equals
the original selected text exactly. -/
theorem C6_fontsize_wraps_text :
    ∀ (st : EditorState) (r : SelRange) (size : Nat),
      st.disabled = false → st.selection = some r →
      r.startPos < r.endPos → r.endPos ≤ st.content.length →
      (∀ n ∈ (st.content.take r.endPos).drop r.startPos, isText n = true) →
      (handleFontSize size st).content =
        st.content.take r.startPos ++
          ((st.content.take r.endPos).drop r.startPos).map (wrapNode size) ++
          st.content.drop r.endPos ∧
      (∀ m ∈ ((st.content.take r.endPos).drop r.startPos).map (wrapNode size),
        ∃ s : String, m = DomNode.element "span" (some size) [DomNode.text s]) ∧
      textContentList
          (((st.content.take r.endPos).drop r.startPos).map (wrapNode size)) =
        textContentList ((st.content.take r.endPos).drop r.startPos) := by
  intro st r size hdis hsel hlt hle htext
  refine ⟨?_, ?_, textContentList_map_wrap size _⟩
  · rw [handleFontSize_active size hsel hdis (by omega)]
  · intro m hm
    obtain ⟨n, hn, hwn⟩ := List.mem_map.mp hm
    have hti := htext n hn
    cases n with
    | text s => exact ⟨s, by rw [← hwn]; rfl⟩
    | element t fs ch => simp [isText] at hti

theorem C6_fontsize_wraps_text_witness :
    (handleFontSize 14 sampleState).content =
      [DomNode.element "span" (some 14) [DomNode.text "hello"],
       DomNode.text "world"] := by
  have h := C6_fontsize_wraps_text sampleState ⟨0, 1⟩ 14 rfl rfl
    (by decide) (by decide) (by decide)
  exact h.1

/-- C7: every toolbar action (bold, color, link, font-size) is a no-op when
the widget is disabled or when no selection is cached: no formatting command
is executed, no content-change notification is emitted, and the document
content is unchanged (the link path may still show its invalid-URL alert,
which is not a document mutation); additionally the font-size command is a
no-op when the cached range is collapsed. -/
theorem C7_toolbar_gating :
    ∀ (eff : String → Option String → List DomNode → List DomNode)
      (v : Option String) (size : Nat) (url : Option String) (st : EditorState),
      ((st.disabled = true ∨ (st.selection = none ∧ st.hasSelection = false)) →
        execCommand eff "bold" none st = st ∧
        execCommand eff "foreColor" v st = st ∧
        handleFontSize size st = st ∧
        (handleLink eff url st).content = st.content ∧
        (handleLink eff url st).emitted = st.emitted ∧
        (handleLink eff url st).commands = st.commands) ∧
      (∀ r, st.selection = some r → r.startPos = r.endPos →
        handleFontSize size st = st) := by
  intro eff v size url st
  constructor
  · intro h
    have hexec : ∀ c w, execCommand eff c w st = st := by
      intro c w
      apply execCommand_noop
      rcases h with h | h
      · exact Or.inr h
      · exact Or.inl h.2
    have hfs : handleFontSize size st = st := by
      rcases h with h | h
      · exact handleFontSize_disabled size h
      · exact handleFontSize_no_selection size h.1
    have hlink : (handleLink eff url st).content = st.content ∧
        (handleLink eff url st).emitted = st.emitted ∧
        (handleLink eff url st).commands = st.commands := by
      cases url with
      | none => exact ⟨rfl, rfl, rfl⟩
      | some u =>
        by_cases hu : u = ""
        · have heq : handleLink eff (some u) st = st := by
            show (if u = "" then st else _) = st
            rw [if_pos hu]
          rw [heq]; exact ⟨rfl, rfl, rfl⟩
        · cases hs : sanitizeUrl u with
          | some s =>
            have heq : handleLink eff (some u) st =
                execCommand eff "createLink" (some s) st := by
              show (if u = "" then st else _) = _
              rw [if_neg hu, hs]
            rw [heq, hexec]; exact ⟨rfl, rfl, rfl⟩
          | none =>
            have heq : handleLink eff (some u) st =
                { st with alerts := st.alerts + 1 } := by
              show (if u = "" then st else _) = _
              rw [if_neg hu, hs]
            rw [heq]; exact ⟨rfl, rfl, rfl⟩
    exact ⟨hexec "bold" none, hexec "foreColor" v, hfs,
      hlink.1, hlink.2.1, hlink.2.2⟩
  · intro r hsel hc
    exact handleFontSize_collapsed size hsel hc

theorem C7_toolbar_gating_witness :
    execCommand sampleEff "bold" none sampleDisabled = sampleDisabled ∧
    handleFontSize 16 sampleDisabled = sampleDisabled ∧
    handleFontSize 16 sampleCollapsed = sampleCollapsed := by
  have h1 := C7_toolbar_gating sampleEff none 16 none sampleDisabled
  have h2 := C7_toolbar_gating sampleEff none 16 none sampleCollapsed
  exact ⟨(h1.1 (Or.inl rfl)).1, (h1.1 (Or.inl rfl)).2.2.1, h2.2 ⟨1, 1⟩ rfl rfl⟩

/-- C8: on the link-insertion path with a non-empty entered URL, whenever
`sanitizeUrl` rejects, the user is shown a validation alert and nothing else
changes (no command, no emission, no content change); whenever `sanitizeUrl`
accepts, the `createLink` command is applied with the sanitized URL, never
the raw input. -/
theorem C8_link_sanitization :
    ∀ (eff : String → Option String → List DomNode → List DomNode)
      (st : EditorState) (url : String), url ≠ "" →
      (sanitizeUrl url = none →
        handleLink eff (some url) st = { st with alerts := st.alerts + 1 }) ∧
      (∀ s, sanitizeUrl url = some s →
        handleLink eff (some url) st = execCommand eff "createLink" (some s) st ∧
        (st.hasSelection = true → st.disabled = false →
          (handleLink eff (some url) st).commands =
            st.commands ++ [("createLink", some s)])) := by
  intro eff st url hne
  constructor
  · intro hnone
    show (if url = "" then st else _) = _
    rw [if_neg hne, hnone]
  · intro s hs
    have heq : handleLink eff (some url) st =
        execCommand eff "createLink" (some s) st := by
      show (if url = "" then st else _) = _
      rw [if_neg hne, hs]
    refine ⟨heq, ?_⟩
    intro h1 h2
    rw [heq, execCommand_run eff _ _ h1 h2]

theorem C8_link_sanitization_witness :
    handleLink sampleEff (some "not a url") sampleState =
      { sampleState with alerts := sampleState.alerts + 1 } ∧
    (handleLink sampleEff (some "example.com") sampleState).commands =
      sampleState.commands ++ [("createLink", some "https://example.com/")] := by
  refine ⟨(C8_link_sanitization sampleEff sampleState "not a url"
    (by decide)).1 (by decide), ?_⟩
  exact ((C8_link_sanitization sampleEff sampleState "example.com"
    (by decide)).2 "https://example.com/" (by decide)).2 rfl rfl

/-- C9 counterexample: the input `"a b"` is non-empty after trimming, matches
neither the denylist nor the scheme regex, yet `sanitizeUrl` returns `none`
(the prepended `https://a b` fails to parse because of the space), so the
claim's unconditional "returns the canonicalized URL" is false as stated. -/
theorem C9_counterexample :
    trimJS ("a b" : String).data ≠ [] ∧
    dangerousTestL (trimJS ("a b" : String).data) = false ∧
    schemeTestL (trimJS ("a b" : String).data) = false ∧
    sanitizeUrl "a b" = none := by decide

/-- C9 (amended): for every non-empty, non-whitespace-only input that lacks an
explicit `http`/`https` scheme and does not match the denylist, `sanitizeUrl`
prepends `https://` before parsing and, when the prepended string parses as a
URL, returns the canonicalized URL (otherwise it returns `none`); e.g.
`sanitizeUrl "example.com"` returns `"https://example.com/"`. -/
theorem C9_prepend_https :
    (∀ x : String, trimJS x.data ≠ [] →
      dangerousTestL (trimJS x.data) = false →
      schemeTestL (trimJS x.data) = false →
      sanitizeUrl x = (parseL ("https://".data ++ trimJS x.data)).map
        (fun u => String.mk (serializeL u))) ∧
    sanitizeUrl "example.com" = some "https://example.com/" := by
  constructor
  · intro x h1 h2 h3
    rw [sanitizeUrl_eq_map, sanitize_of_noscheme h1 h2 h3]
    cases parseL ("https://".data ++ trimJS x.data) <;> rfl
  · decide

theorem C9_prepend_https_witness :
    sanitizeUrl "example.com" =
      (parseL ("https://".data ++ trimJS ("example.com" : String).data)).map
        (fun u => String.mk (serializeL u)) :=
  C9_prepend_https.1 "example.com" (by decide) (by decide) (by decide)

/-- C10: `sanitizeUrl` is a total function into `Option String`: empty and
whitespace-only inputs return `none`, and a URL-parse failure yields `none`
(the `catch` path) rather than an exception; e.g. `"%"` fails to parse after
normalization and is rejected. -/
theorem C10_total_function :
    (∀ s : String, trimJS s.data = [] → sanitizeUrl s = none) ∧
    (∀ s : String, parseL (normalizedInput s) = none → sanitizeUrl s = none) ∧
    sanitizeUrl "" = none ∧ sanitizeUrl "   " = none ∧
    parseL (normalizedInput "%") = none ∧ sanitizeUrl "%" = none := by
  refine ⟨?_, ?_, by decide, by decide, by decide, by decide⟩
  · intro s h
    rw [sanitizeUrl_eq_map, sanitize_of_trim_nil h]
    rfl
  · intro s h
    rw [sanitizeUrl_eq_map, sanitize_of_parse_fail h]
    rfl

theorem C10_total_function_witness :
    sanitizeUrl "  " = none ∧ sanitizeUrl "%" = none :=
  ⟨C10_total_function.1 "  " (by decide), C10_total_function.2.1 "%" (by decide)⟩

end Writsy
